import Mathlib

/-!
Verification development for the Adaptive Context Assembly & Caching Pipeline
(smart content processor, system prompt manager, content cache, adaptive rate
limiter).  Each component is shallowly embedded from its JavaScript source:
pure functions become Lean functions, the stateful classes become explicit
state-passing functions, JavaScript numbers used as counters/timestamps become
Nat/Int, and JavaScript floats (relevance scores, the health EMA) become Rat.
Fallible host operations (disk writes) are driven by an explicit success flag.
-/

/-! ## JavaScript string primitives

Small executable models of the JavaScript string operations the sources use
(`toLowerCase`, `includes`, `trim`, `slice`, `indexOf`, `split(/\s+/)`, and
counting non-overlapping regex matches of an escaped literal word).
-/

/-- Characters treated as whitespace by the JavaScript `\s` class and `trim`
(restricted to the ASCII range, which is all the sources rely on). -/
def isJsWhitespace (c : Char) : Bool :=
  c = ' ' || c = '\t' || c = '\n' || c = '\r' || c = '\x0b' || c = '\x0c'

/-- Model of `String.prototype.toLowerCase` (ASCII lowering). -/
def toLowerStr (s : String) : String :=
  String.mk (s.data.map Char.toLower)

/-- Model of `String.prototype.trim`: strip leading and trailing whitespace. -/
def jsTrim (s : String) : String :=
  String.mk (((s.data.dropWhile isJsWhitespace).reverse.dropWhile isJsWhitespace).reverse)

/-- Substring test on character lists; `containsSub s sub` is true when `sub`
occurs contiguously in `s` (true for the empty `sub`, as in JavaScript). -/
def containsSub (s sub : List Char) : Bool :=
  match s with
  | [] => sub.isEmpty
  | c :: rest => sub.isPrefixOf (c :: rest) || containsSub rest sub

/-- Model of `String.prototype.includes`. -/
def containsStr (s sub : String) : Bool :=
  containsSub s.data sub.data

theorem lengthDropWhileLe (p : α → Bool) (l : List α) :
    (l.dropWhile p).length ≤ l.length := by
  induction l with
  | nil => simp
  | cons a t ih =>
    rw [List.dropWhile_cons]
    split
    · exact Nat.le_succ_of_le ih
    · exact Nat.le_refl _

/-- Count the non-overlapping occurrences of `sub` in `s`, scanning left to
right: the model of `(s.match(new RegExp(escapedLiteral, "gi")) || []).length`
on already-lowercased input.  For the empty pattern JavaScript reports
`s.length + 1` matches. -/
def countOcc (sub : List Char) (s : List Char) : Nat :=
  match sub, s with
  | [], l => l.length + 1
  | _ :: _, [] => 0
  | a :: st, c :: rest =>
    if (a :: st).isPrefixOf (c :: rest) then 1 + countOcc (a :: st) (rest.drop st.length)
    else countOcc (a :: st) rest
termination_by s.length
decreasing_by
  · simp only [List.length_drop, List.length_cons]
    omega
  · simp only [List.length_cons]
    omega

/-- Count of non-overlapping occurrences, on strings. -/
def countOccStr (s sub : String) : Nat :=
  countOcc sub.data s.data

/-- Worker for `splitWs`: accumulates the current field (reversed) and starts
a new field at every maximal whitespace run. -/
def splitWsGo (cur : List Char) (l : List Char) : List (List Char) :=
  match l with
  | [] => [cur.reverse]
  | c :: rest =>
    if isJsWhitespace c then
      cur.reverse :: splitWsGo [] (rest.dropWhile isJsWhitespace)
    else
      splitWsGo (c :: cur) rest
termination_by l.length
decreasing_by
  · exact Nat.lt_succ_of_le (lengthDropWhileLe _ _)
  · exact Nat.lt_succ_self _

/-- Model of `String.prototype.split(/\s+/)`: split on maximal whitespace
runs, keeping the empty leading/trailing fields JavaScript produces when the
string starts or ends with whitespace. -/
def splitWs (s : String) : List String :=
  (splitWsGo [] s.data).map String.mk

/-- Worker for `jsIndexOfFrom`: first position at or after `i` where `sub` is
a prefix of the remaining text, `-1` when there is none. -/
def idxGo (sub : List Char) (i : Nat) (l : List Char) : Int :=
  match l with
  | [] => if sub.isEmpty then (i : Int) else -1
  | c :: rest => if sub.isPrefixOf (c :: rest) then (i : Int) else idxGo sub (i + 1) rest

/-- Model of `String.prototype.indexOf(sub, fromIdx)` (start position clamped
into `[0, length]` as in JavaScript). -/
def jsIndexOfFrom (s sub : String) (fromIdx : Int) : Int :=
  let start := min fromIdx.toNat s.data.length
  idxGo sub.data start (s.data.drop start)

/-- Model of `String.prototype.slice(a, b)` with JavaScript index semantics:
negative indices count from the end, and both ends are clamped. -/
def jsSlice (s : String) (a b : Int) : String :=
  let len : Int := (s.length : Int)
  let st := (if a < 0 then max (len + a) 0 else min a len).toNat
  let en := (if b < 0 then max (len + b) 0 else min b len).toNat
  String.mk ((s.data.take en).drop st)

/-- Model of one-argument `String.prototype.slice(a)`. -/
def jsSliceOne (s : String) (a : Int) : String :=
  jsSlice s a (s.length : Int)

/-! ## SmartContentProcessor (src/server/smart-content-processor.js)

The two regex-driven host primitives (`content.match(sectionPatterns[i])` and
`content.split(/\n\s*\n/)`) have no counterpart in Lean, so they are supplied
as an explicit parameter `ops`; every theorem below quantifies over all
behaviours of these primitives, and none of the claims depends on them.
All other logic is translated directly.
-/

/-- The result of `content.match(sectionPatterns[i])` (empty list for a null
result) and of `content.split(/\n\s*\n/)`, supplied as parameters because
they wrap the JavaScript regex engine. -/
structure JsStringOps where
  matchSection : Nat → String → List String
  splitParas : String → List String

/-- A chunk object as constructed by the processor.  The `type`,
`originalLength` and `enhancedLength` properties are absent (`none`) on
objects that were built without them, exactly as in JavaScript. -/
structure Chunk where
  content : String
  relevance : ℚ
  type : Option String
  originalLength : Option Nat
  enhancedLength : Option Nat
deriving DecidableEq

/-- Constructor field `this.maxChunkSize = 25000`. -/
def maxChunkSize : Nat := 25000

/-- Constructor field `this.overlapSize = 1000`. -/
def overlapSize : Nat := 1000

/-- The `disclaimerKeywords` list of `splitBySections`. -/
def disclaimerKeywords : List String :=
  ["disclaimer", "legal", "forward-looking", "cautionary",
   "apologize", "notice", "standard", "portion", "moderator",
   "introduction", "opening remarks", "good morning", "welcome"]

/-- The `businessKeywords` list of `splitBySections`. -/
def businessKeywords : List String :=
  ["revenue", "earnings", "profit", "growth", "financial",
   "quarter", "performance", "strategy", "initiative",
   "business", "operational", "market", "segment",
   "medical", "health", "care", "provider", "network",
   "medicare", "medicaid", "aca", "employer", "portfolio",
   "billion", "million", "cost", "trend", "utilization"]

/-- The `disclaimerPatterns` of `calculateRelevance`; each is a
case-insensitive literal, so on lowercased content the regex test is a
substring test. -/
def disclaimerPatterns : List String :=
  ["disclaimer", "legal", "forward-looking", "cautionary",
   "moderator", "introduction", "opening remarks",
   "apologize", "notice", "standard", "portion"]

/-- The `businessPatterns` of `calculateRelevance`. -/
def businessPatterns : List String :=
  ["revenue", "earnings", "profit", "growth", "financial",
   "quarter", "performance", "strategy", "initiative",
   "business", "operational", "market", "segment",
   "medical", "health", "care", "provider", "network",
   "utilization", "quality", "satisfaction", "investment"]

/-- `SmartContentProcessor.calculateRelevance(content, query)`: 0.5 with no
query; otherwise minus 5 per disclaimer-pattern hit, plus 3 per
business-pattern hit, plus the count of non-overlapping occurrences of every
query word of length at least 3, plus 2 per word that occurs at all,
normalised by `queryWords.length * 10` and clamped into `[0, 1]`. -/
def calculateRelevance (content query : String) : ℚ :=
  if query = "" then 1/2
  else
    let queryWords := splitWs (toLowerStr query)
    let contentLower := toLowerStr content
    let disclaimerHits := (disclaimerPatterns.filter (fun p => containsStr contentLower p)).length
    let businessHits := (businessPatterns.filter (fun p => containsStr contentLower p)).length
    let longWords := queryWords.filter (fun w => decide (3 ≤ w.length))
    let wordMatches := (longWords.map (fun w => countOccStr contentLower w)).sum
    let exactMatches := (longWords.filter (fun w => containsStr contentLower w)).length
    let score : ℤ := 3 * (businessHits : ℤ) - 5 * (disclaimerHits : ℤ) + (wordMatches : ℤ)
    min 1 (max 0 (((score : ℚ) + (exactMatches : ℚ) * 2) / ((queryWords.length : ℚ) * 10)))

/-- The keep test of the section filter in `splitBySections`:
`businessCount >= 2 || (businessCount >= 1 && disclaimerCount < 3)`. -/
def shouldKeepSection (sec : String) : Bool :=
  let sectionLower := toLowerStr sec
  let disclaimerCount := (disclaimerKeywords.filter (fun k => containsStr sectionLower k)).length
  let businessCount := (businessKeywords.filter (fun k => containsStr sectionLower k)).length
  decide (2 ≤ businessCount) || (decide (1 ≤ businessCount) && decide (disclaimerCount < 3))

/-- `SmartContentProcessor.splitByPattern(content, pattern)`: walk the match
list, slicing the text between successive match positions, trimming each
piece, and keeping only pieces longer than 100 characters. -/
def splitByPattern (ops : JsStringOps) (content : String) (i : Nat) : List String :=
  let ms := ops.matchSection i content
  if ms.isEmpty then [content]
  else
    let res := ms.foldl (fun (acc : List String × Int) m =>
      let matchIndex := jsIndexOfFrom content m acc.2
      if acc.2 < matchIndex then (acc.1 ++ [jsTrim (jsSlice content acc.2 matchIndex)], matchIndex)
      else (acc.1, matchIndex)) ([], 0)
    let secs := if res.2 < (content.length : Int) then res.1 ++ [jsTrim (jsSliceOne content res.2)] else res.1
    secs.filter (fun sec => decide (100 < sec.length))

/-- `SmartContentProcessor.splitBySections(content)`: the first of the four
section patterns with more than one match wins; the resulting sections are
filtered by the keyword heuristic and then by trimmed length above 100. -/
def splitBySections (ops : JsStringOps) (content : String) : List String :=
  let idx? := (List.range 4).find? (fun i => decide (1 < (ops.matchSection i content).length))
  let sections := match idx? with
    | some i => splitByPattern ops content i
    | none => [content]
  let filteredSections := sections.filter shouldKeepSection
  filteredSections.filter (fun s => decide (100 < (jsTrim s).length))

/-- `SmartContentProcessor.splitByParagraphs(content)`: pack blank-line
delimited paragraphs into chunks of at most `maxChunkSize`, scoring each
packed chunk with an empty query. -/
def splitByParagraphs (ops : JsStringOps) (content : String) : List Chunk :=
  let paragraphs := ops.splitParas content
  let res := paragraphs.foldl (fun (acc : List Chunk × String) paragraph =>
    if decide ((acc.2 ++ paragraph).length ≤ maxChunkSize) then
      (acc.1, acc.2 ++ (if acc.2 = "" then "" else "\n\n") ++ paragraph)
    else
      if acc.2 = "" then (acc.1, paragraph)
      else (acc.1 ++ [{ content := jsTrim acc.2, relevance := calculateRelevance acc.2 "",
                        type := some "paragraph", originalLength := none, enhancedLength := none }],
            paragraph)) ([], "")
  if jsTrim res.2 = "" then res.1
  else res.1 ++ [{ content := jsTrim res.2, relevance := calculateRelevance res.2 "",
                   type := some "paragraph", originalLength := none, enhancedLength := none }]

/-- The enhanced content built for position `i` in `addOverlap`: the trailing
`overlapSize` characters of the previous chunk are prepended (when `0 < i`)
and the leading `overlapSize` characters of the next chunk are appended (when
`i` is not last).  Out-of-range accesses cannot occur in the source loop; the
default chunk mirrors that impossibility. -/
def enhancedContent (chunks : List Chunk) (i : Nat) : String :=
  let base := (chunks.getD i ⟨"", 0, none, none, none⟩).content
  let withPrev :=
    if 0 < i then
      "[Previous context: " ++ jsSliceOne (chunks.getD (i - 1) ⟨"", 0, none, none, none⟩).content (-(overlapSize : Int)) ++ "]\n\n" ++ base
    else base
  if i + 1 < chunks.length then
    withPrev ++ ("\n\n[Next context: " ++ jsSlice (chunks.getD (i + 1) ⟨"", 0, none, none, none⟩).content 0 (overlapSize : Int) ++ "]")
  else withPrev

/-- The chunk object pushed at position `i` of the `addOverlap` loop. -/
def enhanceAt (chunks : List Chunk) (i : Nat) : Chunk :=
  let c := chunks.getD i ⟨"", 0, none, none, none⟩
  { c with content := enhancedContent chunks i,
           originalLength := some c.content.length,
           enhancedLength := some (enhancedContent chunks i).length }

/-- `SmartContentProcessor.addOverlap(chunks)`: lists with at most one chunk
are returned as they are; otherwise every chunk is rebuilt with neighbouring
context attached. -/
def addOverlap (chunks : List Chunk) : List Chunk :=
  if chunks.length ≤ 1 then chunks
  else (List.range chunks.length).map (enhanceAt chunks)

/-- The relevance post-filter of `chunkContent`
(`chunks.filter(chunk => chunk.relevance > -0.5)`). -/
def postFilter (chunks : List Chunk) : List Chunk :=
  chunks.filter (fun c => decide (-(1/2 : ℚ) < c.relevance))

/-- `SmartContentProcessor.chunkContent(content, query)` (the spec calls it
`selectRelevantChunks`): single chunk when the content fits, otherwise split
into sections/paragraphs, sort by descending relevance (stable, as JavaScript
`Array.prototype.sort`), filter, fall back to the top two chunks when the
filter removes everything, and stitch overlap. -/
def chunkContent (ops : JsStringOps) (content query : String) : List Chunk :=
  if content.length ≤ maxChunkSize then
    [{ content := content, relevance := calculateRelevance content query,
       type := none, originalLength := none, enhancedLength := none }]
  else
    let sections := splitBySections ops content
    let chunks := sections.foldl (fun (acc : List Chunk) sec =>
      if sec.length ≤ maxChunkSize then
        acc ++ [{ content := sec, relevance := calculateRelevance sec query,
                  type := some "section", originalLength := none, enhancedLength := none }]
      else
        acc ++ (splitByParagraphs ops sec).map (fun c => { c with type := some "paragraph" })) []
    let sorted := chunks.mergeSort (fun a b => decide (b.relevance ≤ a.relevance))
    let filteredChunks := postFilter sorted
    if filteredChunks.length = 0 then addOverlap (sorted.take 2)
    else addOverlap filteredChunks

/-! ## SystemPromptManager (src/server/system-prompt-manager.js)

Only `validatePrompt` is needed by the claims.  The manager's
`currentUserText` and `currentRetrievedContext` fields are passed explicitly;
JavaScript string falsiness (`!s`) is emptiness. -/

/-- The object returned by `SystemPromptManager.validatePrompt(prompt)`. -/
structure ValidationResult where
  isValid : Bool
  issues : List String
  length : Nat
  hasUserText : Bool
  hasContext : Bool
deriving DecidableEq

/-- The user-text placeholder literal of the manager. -/
def userTextToken : String := "\x7b\x7bUSER_TEXT\x7d\x7d"

/-- The retrieved-context placeholder literal of the manager. -/
def retrievedContextToken : String := "\x7b\x7bRETRIEVED_CONTEXT\x7d\x7d"

/-- `SystemPromptManager.validatePrompt(prompt)`: collects an issue when the
trimmed prompt is empty, when the raw length exceeds 100000, when the
user-text placeholder is present while `currentUserText` is empty, and when
the context placeholder is present while `currentRetrievedContext` is empty;
valid means no issues. -/
def validatePrompt (currentUserText currentRetrievedContext prompt : String) : ValidationResult :=
  let issues :=
    (if (jsTrim prompt).length = 0 then ["Prompt is empty"] else []) ++
    (if 100000 < prompt.length then ["Prompt exceeds recommended length"] else []) ++
    (if containsStr prompt userTextToken && currentUserText = "" then
      ["User text placeholder not filled"] else []) ++
    (if containsStr prompt retrievedContextToken && currentRetrievedContext = "" then
      ["Retrieved context placeholder not filled"] else [])
  { isValid := issues.isEmpty,
    issues := issues,
    length := prompt.length,
    hasUserText := !(currentUserText = ""),
    hasContext := !(currentRetrievedContext = "") }

/-! ## ContentCache (src/unnamed/part_003, content-cache.js)

The cache state is the in-memory `Map` (an insertion-ordered association
list, as JavaScript `Map`), the set of persisted artifacts (an association
list standing for the files of the cache directory), and the hit/miss/save
counters.  The SHA-256 fingerprint is modelled as the combined string itself
(`content + "|" + query`): the hash is deterministic and collision-free for
the purposes of every claim, and Lean has no SHA-256 primitive.  The
`index.json` bookkeeping and the byte-size statistic only feed reporting and
are not modelled.  `Date.now()` is the explicit parameter `now`; a failing
disk write (the `catch` of `cacheContent`) is the `diskOk := false` case. -/

/-- The `metadata` object attached by `cacheContent`. -/
structure CacheMetadata where
  originalLength : Nat
  query : String
  timestamp : Int
  expiresAt : Int
deriving DecidableEq

/-- A persisted/in-memory cache entry (`{content: payload, metadata}`). -/
structure CacheEntry (α : Type) where
  content : α
  metadata : CacheMetadata
deriving DecidableEq

/-- The mutable state of a `ContentCache` instance. -/
structure CacheState (α : Type) where
  memoryCache : List (String × CacheEntry α)
  disk : List (String × CacheEntry α)
  hits : Nat
  misses : Nat
  saves : Nat
deriving DecidableEq

/-- Constructor field `this.maxMemorySize = 100`. -/
def maxMemorySize : Nat := 100

/-- A fresh cache (`memoryCache` empty, no artifacts, zero counters). -/
def ContentCache.init {α : Type} : CacheState α := ⟨[], [], 0, 0, 0⟩

/-- `Map.prototype.set` on an insertion-ordered association list: an existing
key keeps its position, a new key is appended. -/
def mapSet {β : Type} (m : List (String × β)) (k : String) (v : β) : List (String × β) :=
  if m.any (fun p => p.1 == k) then m.map (fun p => if p.1 == k then (k, v) else p)
  else m ++ [(k, v)]

/-- `ContentCache.generateCacheKey(content, query)`; sha256 is modelled as
the identity on the combined string (see the section comment). -/
def generateCacheKey (content query : String) : String :=
  content ++ "|" ++ query

/-- `ContentCache.isCacheValid(cached)`: the entry is valid while
`Date.now() < metadata.expiresAt` (metadata is always present here). -/
def isCacheValid {α : Type} (now : Int) (cached : CacheEntry α) : Bool :=
  decide (now < cached.metadata.expiresAt)

/-- `ContentCache.addToMemoryCache(cacheKey, cacheData)`: evict the
oldest-inserted entry when at capacity, then `set`. -/
def addToMemoryCache {α : Type} (m : List (String × CacheEntry α)) (k : String)
    (v : CacheEntry α) : List (String × CacheEntry α) :=
  let m := if maxMemorySize ≤ m.length then m.drop 1 else m
  mapSet m k v

/-- `ContentCache.getCachedContent(content, query)`: the memory tier is
consulted first and returns its entry with no expiry check; a persisted hit
is validated against `expiresAt`, promoted to memory when valid and deleted
when expired; everything else is a miss. -/
def getCachedContent {α : Type} (now : Int) (s : CacheState α) (content query : String) :
    Option (CacheEntry α) × CacheState α :=
  let cacheKey := generateCacheKey content query
  match s.memoryCache.lookup cacheKey with
  | some cached => (some cached, { s with hits := s.hits + 1 })
  | none =>
    match s.disk.lookup cacheKey with
    | some cached =>
      if isCacheValid now cached then
        (some cached, { s with hits := s.hits + 1,
                               memoryCache := addToMemoryCache s.memoryCache cacheKey cached })
      else
        (none, { s with disk := s.disk.filter (fun p => !(p.1 == cacheKey)),
                        misses := s.misses + 1 })
    | none => (none, { s with misses := s.misses + 1 })

/-- `ContentCache.cacheContent(content, query, processedChunks)`: build the
entry with a 24-hour TTL and write it to disk; only when that write succeeds
is the entry mirrored into memory and the save counter bumped.  A failing
write (`diskOk = false`) raises inside the `try`, so the `catch` returns
`false` with the state untouched. -/
def cacheContent {α : Type} (now : Int) (diskOk : Bool) (s : CacheState α)
    (content query : String) (processedChunks : α) : Bool × CacheState α :=
  let cacheKey := generateCacheKey content query
  let cacheData : CacheEntry α :=
    { content := processedChunks,
      metadata := { originalLength := content.length, query := query,
                    timestamp := now, expiresAt := now + 24 * 60 * 60 * 1000 } }
  if diskOk then
    (true, { s with disk := mapSet s.disk cacheKey cacheData,
                    memoryCache := addToMemoryCache s.memoryCache cacheKey cacheData,
                    saves := s.saves + 1 })
  else (false, s)

/-! ## AdaptiveRateLimiter (src/unnamed/part_002, adaptive-rate-limiter.js)

The per-user map and the API-health singleton form the limiter state;
`Date.now()` is the explicit parameter `now`.  JavaScript float arithmetic on
the health EMA and the success rate is modelled over `Rat`.  A call of
`isRequestAllowed` for an identity with no record dereferences `undefined` in
the source (the record is created only after the local `user` was read), so
that case is `none`.  The periodic `saveUserData`/`loadUserData` disk
round-trips are outside the claims and are not modelled. -/

/-- The four limiter tiers. -/
inductive UserTier
  | newUser
  | regular
  | power
  | enterprise
deriving DecidableEq

/-- A per-user record of `this.userLimits`. -/
structure UserRecord where
  tier : UserTier
  requests : Nat
  lastRequest : Int
  successCount : Nat
  errorCount : Nat
  upgradeEligible : Bool
deriving DecidableEq

/-- The `this.apiHealth` singleton. -/
structure ApiHealth where
  successRate : ℚ
  errorCount : Nat
  totalRequests : Nat
  lastReset : Int
deriving DecidableEq

/-- The limiter state: user map plus health snapshot. -/
structure LimiterState where
  userLimits : List (String × UserRecord)
  apiHealth : ApiHealth
deriving DecidableEq

/-- Base request budgets of `this.baseLimits` per tier. -/
def baseRequests : UserTier → Nat
  | UserTier.newUser => 5
  | UserTier.regular => 15
  | UserTier.power => 25
  | UserTier.enterprise => 50

/-- Base window durations of `this.baseLimits` (60000 ms for every tier). -/
def baseWindow : UserTier → Int := fun _ => 60000

/-- The record created lazily for a first-time user. -/
def freshUser : UserRecord :=
  { tier := UserTier.newUser, requests := 0, lastRequest := 0,
    successCount := 0, errorCount := 0, upgradeEligible := false }

/-- `AdaptiveRateLimiter.getHealthMultiplier()`. -/
def getHealthMultiplier (h : ApiHealth) : ℚ :=
  if h.successRate < 8/10 then max (1/2) (1 * h.successRate)
  else if 95/100 < h.successRate ∧ 1000 < h.totalRequests then
    min (3/2) (1 * (1 + (h.successRate - 95/100) * 2))
  else 1

/-- The object returned by `getUserLimit`. -/
structure LimitInfo where
  requests : Int
  window : Int
  tier : UserTier
  healthMultiplier : ℚ
deriving DecidableEq

/-- The limit computed from a user record and the current health
(`Math.floor(baseLimit.requests * healthMultiplier)`). -/
def limitFor (u : UserRecord) (h : ApiHealth) : LimitInfo :=
  let hm := getHealthMultiplier h
  { requests := ⌊(baseRequests u.tier : ℚ) * hm⌋, window := baseWindow u.tier,
    tier := u.tier, healthMultiplier := hm }

/-- `AdaptiveRateLimiter.getUserLimit(userId)`: create the record lazily,
then derive the health-adjusted limit. -/
def getUserLimit (st : LimiterState) (uid : String) : LimitInfo × LimiterState :=
  match st.userLimits.lookup uid with
  | some u => (limitFor u st.apiHealth, st)
  | none => (limitFor freshUser st.apiHealth,
             { st with userLimits := mapSet st.userLimits uid freshUser })

/-- The success/error counter bump at the top of `recordRequest`. -/
def applyOutcome (u : UserRecord) (success : Bool) : UserRecord :=
  if success then { u with successCount := u.successCount + 1 }
  else { u with errorCount := u.errorCount + 1 }

/-- `AdaptiveRateLimiter.updateUserTier(userId)` as a pure record update:
upgrade `newUser -> regular` at 50 requests and success rate at least 0.9,
`regular -> power` at 200 and 0.95 (an `else if`), then the downgrade check
on the possibly upgraded tier. -/
def updateUserTierPure (u : UserRecord) : UserRecord :=
  let successRate : ℚ := (u.successCount : ℚ) / ((u.successCount : ℚ) + (u.errorCount : ℚ))
  let totalRequests := u.successCount + u.errorCount
  let u1 :=
    if 50 ≤ totalRequests ∧ 9/10 ≤ successRate ∧ u.tier = UserTier.newUser then
      { u with tier := UserTier.regular, upgradeEligible := false }
    else if 200 ≤ totalRequests ∧ 95/100 ≤ successRate ∧ u.tier = UserTier.regular then
      { u with tier := UserTier.power, upgradeEligible := false }
    else u
  if 100 ≤ totalRequests ∧ successRate < 7/10 ∧ ¬ u1.tier = UserTier.newUser then
    { u1 with tier := if u1.tier = UserTier.power then UserTier.regular else UserTier.newUser }
  else u1

/-- `AdaptiveRateLimiter.updateApiHealth()`: reset the whole snapshot once
the last reset is more than an hour old. -/
def updateApiHealthPure (now : Int) (h : ApiHealth) : ApiHealth :=
  if 3600000 < now - h.lastReset then
    { successRate := 1, errorCount := 0, totalRequests := 0, lastReset := now }
  else h

/-- `AdaptiveRateLimiter.recordRequest(userId, success)`: no-op for an
unknown user; otherwise bump the user counters, update the EMA on success or
the error counters on failure, bump `totalRequests`, re-evaluate the tier and
run the hourly health reset check. -/
def recordRequest (now : Int) (st : LimiterState) (uid : String) (success : Bool) : LimiterState :=
  match st.userLimits.lookup uid with
  | none => st
  | some user =>
    let user1 := applyOutcome user success
    let h1 :=
      if success then
        { st.apiHealth with successRate := st.apiHealth.successRate * (9/10) + 1/10 }
      else
        { st.apiHealth with errorCount := st.apiHealth.errorCount + 1 }
    let h2 := { h1 with totalRequests := h1.totalRequests + 1 }
    let user2 := updateUserTierPure user1
    let h3 := updateApiHealthPure now h2
    { st with userLimits := mapSet st.userLimits uid user2, apiHealth := h3 }

/-- The object returned by `isRequestAllowed` (`windowEnd` omitted: it is a
formatted timestamp used only for display). -/
structure AllowResult where
  allowed : Bool
  remaining : Int
  retryAfter : Option Int
deriving DecidableEq

/-- `AdaptiveRateLimiter.isRequestAllowed(userId)`: `none` models the
`TypeError` the source raises for an identity with no record (the local
`user` is read from the map before `getUserLimit` creates it).  Otherwise:
reset the counter when the window has passed, allow and record a success
while under the limit, or deny, record a failure and report `retryAfter` in
whole seconds (`Math.ceil(ms / 1000)`). -/
def isRequestAllowed (now : Int) (st : LimiterState) (uid : String) :
    Option (AllowResult × LimiterState) :=
  match st.userLimits.lookup uid with
  | none => none
  | some user =>
    let p := getUserLimit st uid
    let limit := p.1
    let user1 :=
      if limit.window < now - user.lastRequest then
        { user with requests := 0, lastRequest := now }
      else user
    if (user1.requests : Int) < limit.requests then
      let user2 := { user1 with requests := user1.requests + 1, lastRequest := now }
      let st2 := { p.2 with userLimits := mapSet p.2.userLimits uid user2 }
      let st3 := recordRequest now st2 uid true
      some ({ allowed := true, remaining := limit.requests - (user2.requests : Int),
              retryAfter := none }, st3)
    else
      let st2 := { p.2 with userLimits := mapSet p.2.userLimits uid user1 }
      let st3 := recordRequest now st2 uid false
      let timeUntilReset := limit.window - (now - user1.lastRequest)
      some ({ allowed := false, remaining := 0,
              retryAfter := some ⌈(timeUntilReset : ℚ) / 1000⌉ }, st3)

/-- A sequence of recorded outcomes for one user identity. -/
def runOutcomes (now : Int) (st : LimiterState) (uid : String) (bs : List Bool) : LimiterState :=
  bs.foldl (fun s b => recordRequest now s uid b) st

/-! ## Helper lemmas -/

theorem lookup_map_replace {β : Type} (m : List (String × β)) (k : String) (v : β)
    (h : m.any (fun p => p.1 == k) = true) :
    (m.map (fun p => if p.1 == k then (k, v) else p)).lookup k = some v := by
  induction m with
  | nil => simp at h
  | cons a t ih =>
    simp only [List.any_cons, Bool.or_eq_true] at h
    simp only [List.map_cons]
    by_cases ha : a.1 = k
    · rw [if_pos (beq_iff_eq.mpr ha)]
      simp [List.lookup]
    · have hb : (a.1 == k) = false := beq_eq_false_iff_ne.mpr ha
      rw [if_neg (by simp [hb])]
      have hkne : (k == a.1) = false := beq_eq_false_iff_ne.mpr (fun hk => ha hk.symm)
      simp only [List.lookup, hkne]
      apply ih
      rcases h with h | h
      · rw [hb] at h; cases h
      · exact h

theorem lookup_append_self {β : Type} (m : List (String × β)) (k : String) (v : β)
    (h : m.any (fun p => p.1 == k) = false) :
    (m ++ [(k, v)]).lookup k = some v := by
  induction m with
  | nil => simp [List.lookup]
  | cons a t ih =>
    simp only [List.any_cons, Bool.or_eq_false_iff] at h
    have hne : (k == a.1) = false :=
      beq_eq_false_iff_ne.mpr (fun hk => (beq_eq_false_iff_ne.mp h.1) hk.symm)
    simp only [List.cons_append, List.lookup, hne]
    exact ih h.2

theorem lookup_mapSet_self {β : Type} (m : List (String × β)) (k : String) (v : β) :
    (mapSet m k v).lookup k = some v := by
  unfold mapSet
  split
  · exact lookup_map_replace m k v (by assumption)
  · exact lookup_append_self m k v (Bool.eq_false_iff.mpr (by assumption))

theorem getUserLimit_of_mem (st : LimiterState) (uid : String) (u : UserRecord)
    (h : st.userLimits.lookup uid = some u) :
    getUserLimit st uid = (limitFor u st.apiHealth, st) := by
  simp [getUserLimit, h]

theorem applyOutcome_fields (u : UserRecord) (b : Bool) :
    (applyOutcome u b).tier = u.tier ∧ (applyOutcome u b).requests = u.requests ∧
    (applyOutcome u b).lastRequest = u.lastRequest := by
  unfold applyOutcome
  split <;> simp

theorem updateUserTierPure_fields (u : UserRecord) :
    (updateUserTierPure u).requests = u.requests ∧
    (updateUserTierPure u).lastRequest = u.lastRequest ∧
    (updateUserTierPure u).successCount = u.successCount ∧
    (updateUserTierPure u).errorCount = u.errorCount := by
  refine ⟨?_, ?_, ?_, ?_⟩ <;>
    (simp only [updateUserTierPure]; repeat' split) <;> rfl

theorem recordRequest_lookup (now : Int) (st : LimiterState) (uid : String) (u : UserRecord)
    (b : Bool) (h : st.userLimits.lookup uid = some u) :
    (recordRequest now st uid b).userLimits.lookup uid
      = some (updateUserTierPure (applyOutcome u b)) := by
  simp only [recordRequest, h]
  exact lookup_mapSet_self _ _ _

/-- A scoring/splitting oracle used for concrete evaluations; the branches it
feeds are irrelevant to the statements it appears in. -/
def trivialOps : JsStringOps := ⟨fun _ _ => [], fun s => [s]⟩

/-! ## C3: empty content -/

/-- C3 counterexample.  The claim says `chunkContent` returns the empty list
for empty content; the source takes the `content.length <= maxChunkSize`
branch (0 <= 25000) and returns one chunk whose `content` is the empty
string, with relevance 0.5 for the empty query. -/
theorem chunkContent_empty_cx :
    chunkContent trivialOps "" "" =
      [{ content := "", relevance := 1/2, type := none,
         originalLength := none, enhancedLength := none }] ∧
    chunkContent trivialOps "" "" ≠ [] := by
  refine ⟨rfl, ?_⟩
  intro h
  rw [show chunkContent trivialOps "" "" =
      [{ content := "", relevance := 1/2, type := none,
         originalLength := none, enhancedLength := none }] from rfl] at h
  simp at h

/-- C3 amended: for empty content (and any query and any regex behaviour)
`chunkContent` returns exactly one chunk whose content is the empty string,
scored by `calculateRelevance`, rather than the empty list. -/
theorem chunkContent_empty (ops : JsStringOps) (query : String) :
    chunkContent ops "" query =
      [{ content := "", relevance := calculateRelevance "" query, type := none,
         originalLength := none, enhancedLength := none }] := by
  simp [chunkContent, maxChunkSize]

/-! ## C6: single-chunk branch -/

/-- C6: whenever the content length is at most `maxChunkSize` (25000),
`chunkContent` returns exactly one chunk whose `content` equals the input,
for every query and every behaviour of the regex primitives. -/
theorem chunkContent_small (ops : JsStringOps) (content query : String)
    (h : content.length ≤ maxChunkSize) :
    chunkContent ops content query =
      [{ content := content, relevance := calculateRelevance content query,
         type := none, originalLength := none, enhancedLength := none }] := by
  simp [chunkContent, h]

/-- C6 witness at the concrete content `"hello"`. -/
theorem chunkContent_small_witness :
    ("hello" : String).length ≤ maxChunkSize ∧
    chunkContent trivialOps "hello" "" =
      [{ content := "hello", relevance := calculateRelevance "hello" "",
         type := none, originalLength := none, enhancedLength := none }] :=
  ⟨by decide, chunkContent_small trivialOps "hello" "" (by decide)⟩

/-! ## C5: validatePrompt -/

/-- C5 counterexample.  The claim says a prompt is invalid when an unresolved
placeholder remains while the corresponding current input is NON-empty.  Here
`\x7b\x7bUSER_TEXT\x7d\x7d` remains in the prompt and `currentUserText` is
the non-empty string `"abc"`, yet the source reports the prompt as valid: its
placeholder issues fire only when the corresponding input is empty
(`!this.currentUserText`). -/
theorem validatePrompt_cx :
    (validatePrompt "abc" "ctx" ("\x7b\x7bUSER_TEXT\x7d\x7d tail")).isValid = true := by
  decide

/-- C5 amended: `validatePrompt` reports invalid exactly when the trimmed
prompt is empty, or the raw length exceeds 100000, or a placeholder remains
while the corresponding current input is EMPTY (the opposite polarity from
the claim). -/
theorem validatePrompt_invalid_iff (ut ctx p : String) :
    (validatePrompt ut ctx p).isValid = false ↔
      ((jsTrim p).length = 0 ∨ 100000 < p.length ∨
       (containsStr p userTextToken = true ∧ ut = "") ∨
       (containsStr p retrievedContextToken = true ∧ ctx = "")) := by
  by_cases h1 : (jsTrim p).length = 0 <;>
  by_cases h2 : 100000 < p.length <;>
  by_cases h3 : containsStr p userTextToken = true <;>
  by_cases h4 : ut = "" <;>
  by_cases h5 : containsStr p retrievedContextToken = true <;>
  by_cases h6 : ctx = "" <;>
  simp [validatePrompt, h1, h2, h3, h4, h5, h6]

/-! ## C4: put with failing persisted write -/

/-- C4 counterexample.  The claim says that when the persisted write fails
the entry is still placed in the in-memory tier, so a get within the TTL
returns it.  In the source, `addToMemoryCache` sits after `fs.writeFileSync`
inside the `try`, so the failing write skips it: the memory tier stays empty
and the subsequent get (here 1 ms later, far within the 24 h TTL) misses. -/
theorem cacheContent_diskFail_cx :
    cacheContent 0 false (ContentCache.init (α := Nat)) "c" "q" 7 =
      (false, ContentCache.init) ∧
    (cacheContent 0 false (ContentCache.init (α := Nat)) "c" "q" 7).2.memoryCache = [] ∧
    (getCachedContent 1 (cacheContent 0 false (ContentCache.init (α := Nat)) "c" "q" 7).2
        "c" "q").1 = none :=
  ⟨rfl, rfl, rfl⟩

/-- C4 amended: a failing persisted write makes `cacheContent` report
failure and leave the cache state (both tiers and all counters) completely
unchanged, so a later get behaves exactly as it would have without the put.
-/
theorem cacheContent_diskFail {α : Type} (now now2 : Int) (s : CacheState α)
    (content query : String) (payload : α) :
    cacheContent now false s content query payload = (false, s) ∧
    (getCachedContent now2 (cacheContent now false s content query payload).2 content query)
      = getCachedContent now2 s content query :=
  ⟨rfl, rfl⟩

/-! ## C1: expiry on get -/

/-- C1 counterexample.  The pair ("c", "q") is stored at time 0, so
`expiresAt = 86400000`; the claim says a get at `now = expiresAt` must miss
even when the entry still sits in the in-memory tier.  The source checks the
memory tier first and returns its entry without any expiry check, so the get
returns the stored entry instead of a miss. -/
theorem getCachedContent_memory_expired_cx :
    (getCachedContent 86400000
        (cacheContent 0 true (ContentCache.init (α := Nat)) "c" "q" 7).2 "c" "q").1 =
      some { content := 7,
             metadata := { originalLength := 1, query := "q",
                           timestamp := 0, expiresAt := 86400000 } } ∧
    ¬ (getCachedContent 86400000
        (cacheContent 0 true (ContentCache.init (α := Nat)) "c" "q" 7).2 "c" "q").1 = none := by
  refine ⟨by decide, ?_⟩
  intro h
  rw [show (getCachedContent 86400000
      (cacheContent 0 true (ContentCache.init (α := Nat)) "c" "q" 7).2 "c" "q").1 =
      some { content := 7,
             metadata := { originalLength := 1, query := "q",
                           timestamp := 0, expiresAt := 86400000 } } from by decide] at h
  cases h

/-- C1 amended: once `now >= expiresAt` (the boundary `now = expiresAt`
included, since validity is `now < expiresAt`), a get misses PROVIDED the
entry is no longer in the in-memory tier; memory-tier entries are returned
with no expiry check. -/
theorem getCachedContent_expired_miss {α : Type} (now : Int) (s : CacheState α)
    (content query : String) (e : CacheEntry α)
    (hmem : s.memoryCache.lookup (generateCacheKey content query) = none)
    (hdisk : s.disk.lookup (generateCacheKey content query) = some e)
    (hexp : e.metadata.expiresAt ≤ now) :
    (getCachedContent now s content query).1 = none := by
  simp only [getCachedContent, hmem, hdisk]
  rw [if_neg]
  simp [isCacheValid, not_lt.mpr hexp]

/-- C1 witness: a state whose memory tier is empty and whose persisted tier
holds an entry expiring at 100 misses at `now = 100`. -/
theorem getCachedContent_expired_miss_witness :
    (((⟨[], [("c|q", ⟨7, ⟨1, "q", 0, 100⟩⟩)], 0, 0, 0⟩ : CacheState Nat)).memoryCache.lookup
        (generateCacheKey "c" "q") = none) ∧
    (((⟨[], [("c|q", ⟨7, ⟨1, "q", 0, 100⟩⟩)], 0, 0, 0⟩ : CacheState Nat)).disk.lookup
        (generateCacheKey "c" "q") = some ⟨7, ⟨1, "q", 0, 100⟩⟩) ∧
    ((100 : Int) ≥ (100 : Int)) ∧
    (getCachedContent 100 (⟨[], [("c|q", ⟨7, ⟨1, "q", 0, 100⟩⟩)], 0, 0, 0⟩ : CacheState Nat)
        "c" "q").1 = none :=
  ⟨rfl, by decide, by decide,
   getCachedContent_expired_miss 100 _ "c" "q" ⟨7, ⟨1, "q", 0, 100⟩⟩ rfl (by decide) (by decide)⟩

/-! ## C7: addOverlap -/

theorem enhancedContent_decomp (chunks : List Chunk) (i : Nat) :
    ∃ pre post, enhancedContent chunks i =
      pre ++ (chunks.getD i ⟨"", 0, none, none, none⟩).content ++ post := by
  unfold enhancedContent
  by_cases h0 : 0 < i <;> by_cases h1 : i + 1 < chunks.length <;> simp only [h0, h1, if_pos, if_neg, if_true, if_false]
  · exact ⟨"[Previous context: " ++
        jsSliceOne (chunks.getD (i - 1) ⟨"", 0, none, none, none⟩).content (-(overlapSize : Int)) ++ "]\n\n",
      "\n\n[Next context: " ++
        jsSlice (chunks.getD (i + 1) ⟨"", 0, none, none, none⟩).content 0 (overlapSize : Int) ++ "]",
      by simp [String.append_assoc]⟩
  · exact ⟨"[Previous context: " ++
        jsSliceOne (chunks.getD (i - 1) ⟨"", 0, none, none, none⟩).content (-(overlapSize : Int)) ++ "]\n\n",
      "", by simp [String.append_assoc, String.append_empty]⟩
  · exact ⟨"", "\n\n[Next context: " ++
        jsSlice (chunks.getD (i + 1) ⟨"", 0, none, none, none⟩).content 0 (overlapSize : Int) ++ "]",
      by simp [String.append_assoc, String.empty_append]⟩
  · exact ⟨"", "", by simp [String.append_empty, String.empty_append]⟩

/-- C7 counterexample.  `addOverlap` returns a one-element list untouched:
the output chunk keeps `originalLength = none` although its content has
length 1, so the claim that every output chunk gets
`originalLength = length of the original content` (and with it the
`enhancedLength >= originalLength` guarantee on set fields) fails on
singleton lists. -/
theorem addOverlap_singleton_cx :
    addOverlap [⟨"x", 0, none, none, none⟩] = [⟨"x", 0, none, none, none⟩] ∧
    (⟨"x", 0, none, none, none⟩ : Chunk).originalLength = none ∧
    (⟨"x", 0, none, none, none⟩ : Chunk).content.length = 1 :=
  ⟨rfl, rfl, rfl⟩

/-- C7 amended: for lists of at least two chunks, `addOverlap` preserves
length, `relevance` and `type`, sets `originalLength` to the original
content length and `enhancedLength` to the enhanced content length, keeps
the original content as a contiguous substring of the enhanced content, and
therefore guarantees `enhancedLength >= originalLength`; lists of at most
one chunk are returned entirely unchanged. -/
theorem addOverlap_spec (chunks : List Chunk) :
    (2 ≤ chunks.length →
      (addOverlap chunks).length = chunks.length ∧
      ∀ (i : Nat) (ci : Chunk), chunks[i]? = some ci →
        ∃ co, (addOverlap chunks)[i]? = some co ∧
          co.relevance = ci.relevance ∧ co.type = ci.type ∧
          co.originalLength = some ci.content.length ∧
          co.enhancedLength = some co.content.length ∧
          (∃ pre post, co.content = pre ++ ci.content ++ post) ∧
          ci.content.length ≤ co.content.length) ∧
    (chunks.length ≤ 1 → addOverlap chunks = chunks) := by
  constructor
  · intro h2
    have hnot : ¬ chunks.length ≤ 1 := by omega
    have haddo : addOverlap chunks = (List.range chunks.length).map (enhanceAt chunks) := by
      simp [addOverlap, hnot]
    refine ⟨by rw [haddo]; simp, ?_⟩
    intro i ci hci
    have hilt : i < chunks.length := by
      rcases List.getElem?_eq_some.mp hci with ⟨hlt, _⟩
      exact hlt
    have hgetD : chunks.getD i ⟨"", 0, none, none, none⟩ = ci := by
      simp [List.getD, List.get?_eq_getElem?, hci]
    refine ⟨enhanceAt chunks i, ?_, ?_, ?_, ?_, ?_, ?_, ?_⟩
    · rw [haddo, List.getElem?_map, List.getElem?_range hilt]
      rfl
    · simp [enhanceAt, hci]
    · simp [enhanceAt, hci]
    · simp [enhanceAt, hci]
    · simp [enhanceAt]
    · rcases enhancedContent_decomp chunks i with ⟨pre, post, heq⟩
      rw [hgetD] at heq
      exact ⟨pre, post, by simp [enhanceAt, heq]⟩
    · rcases enhancedContent_decomp chunks i with ⟨pre, post, heq⟩
      rw [hgetD] at heq
      have hco : (enhanceAt chunks i).content = pre ++ ci.content ++ post := by
        simp [enhanceAt, heq]
      have hlen : (pre ++ ci.content ++ post).length
          = pre.length + ci.content.length + post.length := by
        simp [String.length_append]
      rw [hco, hlen]
      omega
  · intro h1
    simp [addOverlap, h1]

/-- Two concrete chunks used to instantiate the `addOverlap` theorem. -/
def chunkA : Chunk := ⟨"a", 0, none, none, none⟩

/-- Second concrete chunk for the `addOverlap` witness. -/
def chunkB : Chunk := ⟨"b", 0, none, none, none⟩

/-- C7 witness: the amended theorem applied to the two-chunk list
`[chunkA, chunkB]` at position 0. -/
theorem addOverlap_spec_witness :
    2 ≤ ([chunkA, chunkB] : List Chunk).length ∧
    ([chunkA, chunkB] : List Chunk)[0]? = some chunkA ∧
    (∃ co, (addOverlap [chunkA, chunkB])[0]? = some co ∧
      co.relevance = chunkA.relevance ∧ co.type = chunkA.type ∧
      co.originalLength = some chunkA.content.length ∧
      co.enhancedLength = some co.content.length ∧
      (∃ pre post, co.content = pre ++ chunkA.content ++ post) ∧
      chunkA.content.length ≤ co.content.length) :=
  ⟨by decide, rfl, ((addOverlap_spec [chunkA, chunkB]).1 (by decide)).2 0 chunkA rfl⟩

/-! ## C10: relevance bounds and the post-filter -/

/-- C10: `calculateRelevance` always lands in `[0, 1]` (0.5 for the empty
query, otherwise the clamped normalised score), so for any chunk list whose
relevances come from `calculateRelevance` (as every chunk built by
`chunkContent` does) the post-filter `relevance > -0.5` keeps every chunk;
consequently the fallback branch guarded by `filteredChunks.length === 0`
can only be entered with an already-empty chunk list (never by the filter
discarding existing chunks), where taking the top two pre-filter chunks
returns the empty list exactly like the normal path. -/
theorem calculateRelevance_bounds_filter (chunks : List Chunk)
    (h : ∀ c ∈ chunks, ∃ s q, c.relevance = calculateRelevance s q) :
    (∀ content, calculateRelevance content "" = 1/2) ∧
    (∀ content query, 0 ≤ calculateRelevance content query ∧
      calculateRelevance content query ≤ 1) ∧
    postFilter chunks = chunks ∧
    (chunks ≠ [] → postFilter chunks ≠ []) := by
  have hb : ∀ content query, 0 ≤ calculateRelevance content query ∧
      calculateRelevance content query ≤ 1 := by
    intro content query
    unfold calculateRelevance
    by_cases hq : query = ""
    · rw [if_pos hq]
      norm_num
    · rw [if_neg hq]
      exact ⟨le_min (by norm_num) (le_max_left _ _), min_le_left _ _⟩
  have hfilter : postFilter chunks = chunks := by
    apply List.filter_eq_self.mpr
    intro c hc
    rcases h c hc with ⟨s, q, hrel⟩
    have h0 := (hb s q).1
    rw [decide_eq_true_eq, hrel]
    linarith
  exact ⟨fun content => by simp [calculateRelevance], hb, hfilter,
    fun hne => by rw [hfilter]; exact hne⟩

/-- A chunk whose relevance is a `calculateRelevance` score, instantiating
the C10 theorem. -/
def chunkW : Chunk := ⟨"revenue", calculateRelevance "revenue" "growth", none, none, none⟩

/-- C10 witness: the theorem applied to the one-chunk list `[chunkW]`. -/
theorem calculateRelevance_bounds_filter_witness :
    (∀ c ∈ [chunkW], ∃ s q, c.relevance = calculateRelevance s q) ∧
    postFilter [chunkW] = [chunkW] ∧
    ([chunkW] ≠ ([] : List Chunk) → postFilter [chunkW] ≠ []) :=
  have hh : ∀ c ∈ [chunkW], ∃ s q, c.relevance = calculateRelevance s q := by
    intro c hc
    rw [List.mem_singleton] at hc
    exact ⟨"revenue", "growth", by rw [hc]; rfl⟩
  ⟨hh, (calculateRelevance_bounds_filter [chunkW] hh).2.2.1,
    (calculateRelevance_bounds_filter [chunkW] hh).2.2.2⟩

/-! ## C9: EMA asymmetry of recordRequest -/

/-- C9: on an existing user record, and provided the hourly health reset
does not fire during the call (`now - lastReset <= 3600000` — the reset is a
separate mechanism that rewrites the whole snapshot), a successful outcome
moves the EMA to `successRate * 0.9 + 0.1` while a failed outcome leaves the
EMA unchanged and increments only the user and system error counters (the
user success count is untouched). -/
theorem recordRequest_ema (now : Int) (st : LimiterState) (uid : String) (u : UserRecord)
    (h : st.userLimits.lookup uid = some u)
    (hreset : now - st.apiHealth.lastReset ≤ 3600000) :
    ((recordRequest now st uid true).apiHealth.successRate
        = st.apiHealth.successRate * (9/10) + 1/10) ∧
    ((recordRequest now st uid false).apiHealth.successRate = st.apiHealth.successRate) ∧
    ((recordRequest now st uid false).apiHealth.errorCount = st.apiHealth.errorCount + 1) ∧
    ((recordRequest now st uid false).apiHealth.totalRequests
        = st.apiHealth.totalRequests + 1) ∧
    ((recordRequest now st uid false).userLimits.lookup uid
        = some (updateUserTierPure { u with errorCount := u.errorCount + 1 })) ∧
    ((updateUserTierPure { u with errorCount := u.errorCount + 1 }).errorCount
        = u.errorCount + 1) ∧
    ((updateUserTierPure { u with errorCount := u.errorCount + 1 }).successCount
        = u.successCount) := by
  have hnr : ¬ (3600000 < now - st.apiHealth.lastReset) := not_lt.mpr hreset
  refine ⟨?_, ?_, ?_, ?_, ?_, ?_, ?_⟩
  · simp [recordRequest, h, updateApiHealthPure, hnr]
  · simp [recordRequest, h, updateApiHealthPure, hnr]
  · simp [recordRequest, h, updateApiHealthPure, hnr]
  · simp [recordRequest, h, updateApiHealthPure, hnr]
  · simp only [recordRequest, h]
    rw [show applyOutcome u false = { u with errorCount := u.errorCount + 1 } from by
      simp [applyOutcome]]
    exact lookup_mapSet_self _ _ _
  · exact (updateUserTierPure_fields _).2.2.2
  · exact (updateUserTierPure_fields _).2.2.1

/-- A one-user limiter state with a healthy EMA, for the witnesses. -/
def stH : LimiterState := ⟨[("u", freshUser)], ⟨1, 0, 0, 0⟩⟩

/-- C9 witness: the theorem applied to `stH` at time 0. -/
theorem recordRequest_ema_witness :
    stH.userLimits.lookup "u" = some freshUser ∧
    ((0 : Int) - stH.apiHealth.lastReset ≤ 3600000) ∧
    ((recordRequest 0 stH "u" true).apiHealth.successRate
        = stH.apiHealth.successRate * (9/10) + 1/10) ∧
    ((recordRequest 0 stH "u" false).apiHealth.successRate = stH.apiHealth.successRate) :=
  ⟨rfl, by decide, (recordRequest_ema 0 stH "u" freshUser rfl (by decide)).1,
   (recordRequest_ema 0 stH "u" freshUser rfl (by decide)).2.1⟩

/-! ## C2: isRequestAllowed window mechanics -/

theorem getHealthMultiplier_ge_half (h : ApiHealth) : 1/2 ≤ getHealthMultiplier h := by
  unfold getHealthMultiplier
  split
  · exact le_max_left _ _
  · split
    · next hnl hcond =>
        refine le_min (by norm_num) ?_
        nlinarith [hcond.1]
    · norm_num

theorem limitFor_two_le (u : UserRecord) (h : ApiHealth) : 2 ≤ (limitFor u h).requests := by
  have hm := getHealthMultiplier_ge_half h
  have hb : (5 : ℚ) ≤ (baseRequests u.tier : ℚ) := by
    cases u.tier <;> norm_num [baseRequests]
  simp only [limitFor]
  rw [Int.le_floor]
  push_cast
  have h1 : 5 * getHealthMultiplier h ≤ (baseRequests u.tier : ℚ) * getHealthMultiplier h :=
    mul_le_mul_of_nonneg_right hb (by linarith)
  linarith

/-- C2 amended: for an existing user record, the counter is reset exactly
when `now - lastRequest > 60000`; an allowed request increments the counter
AND sets the stored window timestamp (`lastRequest`) to `now`; a denial
leaves timestamp and counter unchanged, can only happen with an unexpired
window, and reports `retryAfter = ceil((60000 - (now - lastRequest)) / 1000)`
in whole seconds rather than the raw millisecond difference. -/
theorem isRequestAllowed_spec (now : Int) (st : LimiterState) (uid : String) (user : UserRecord)
    (h : st.userLimits.lookup uid = some user) :
    ∃ res st2, isRequestAllowed now st uid = some (res, st2) ∧
      ∃ u2, st2.userLimits.lookup uid = some u2 ∧
        (res.allowed = true →
          u2.lastRequest = now ∧
          u2.requests = (if (60000 : Int) < now - user.lastRequest then 0
                         else user.requests) + 1) ∧
        (res.allowed = false →
          u2.lastRequest = user.lastRequest ∧ u2.requests = user.requests ∧
          ¬ ((60000 : Int) < now - user.lastRequest) ∧
          res.retryAfter = some ⌈((60000 - (now - user.lastRequest) : Int) : ℚ) / 1000⌉) := by
  have hL := getUserLimit_of_mem st uid user h
  simp only [isRequestAllowed, h, hL]
  by_cases hA : (60000 : Int) < now - user.lastRequest
  · rw [if_pos (show (limitFor user st.apiHealth).window < now - user.lastRequest from hA)]
    have hB : ((({ user with requests := 0, lastRequest := now } : UserRecord).requests : ℕ) : Int)
        < (limitFor user st.apiHealth).requests := by
      have := limitFor_two_le user st.apiHealth
      simp only []
      omega
    rw [if_pos hB]
    refine ⟨_, _, rfl, ?_⟩
    have hlook : (mapSet st.userLimits uid
        { ({ user with requests := 0, lastRequest := now } : UserRecord) with
          requests := ({ user with requests := 0, lastRequest := now } : UserRecord).requests + 1,
          lastRequest := now }).lookup uid = some _ := lookup_mapSet_self _ _ _
    refine ⟨_, recordRequest_lookup now _ uid _ true hlook, ?_, ?_⟩
    · intro _
      constructor
      · rw [(updateUserTierPure_fields _).2.1, (applyOutcome_fields _ _).2.2]
      · rw [(updateUserTierPure_fields _).1, (applyOutcome_fields _ _).2.1, if_pos hA]
    · intro hfalse
      simp at hfalse
  · rw [if_neg (show ¬ (limitFor user st.apiHealth).window < now - user.lastRequest from hA)]
    by_cases hB : ((user.requests : ℕ) : Int) < (limitFor user st.apiHealth).requests
    · rw [if_pos hB]
      refine ⟨_, _, rfl, ?_⟩
      have hlook : (mapSet st.userLimits uid
          { user with requests := user.requests + 1, lastRequest := now }).lookup uid
          = some _ := lookup_mapSet_self _ _ _
      refine ⟨_, recordRequest_lookup now _ uid _ true hlook, ?_, ?_⟩
      · intro _
        constructor
        · rw [(updateUserTierPure_fields _).2.1, (applyOutcome_fields _ _).2.2]
        · rw [(updateUserTierPure_fields _).1, (applyOutcome_fields _ _).2.1, if_neg hA]
      · intro hfalse
        simp at hfalse
    · rw [if_neg hB]
      refine ⟨_, _, rfl, ?_⟩
      have hlook : (mapSet st.userLimits uid user).lookup uid = some user :=
        lookup_mapSet_self _ _ _
      refine ⟨_, recordRequest_lookup now _ uid _ false hlook, ?_, ?_⟩
      · intro htrue
        simp at htrue
      · intro _
        refine ⟨?_, ?_, hA, ?_⟩
        · rw [(updateUserTierPure_fields _).2.1, (applyOutcome_fields _ _).2.2]
        · rw [(updateUserTierPure_fields _).1, (applyOutcome_fields _ _).2.1]
        · rfl

/-- C2 counterexample.  `stH` holds the fresh user "u" whose window started
at `lastRequest = 0`.  An allow-check at `now = 1000` falls inside the
window (1000 - 0 <= 60000), is allowed, and the claim says an allowed
request leaves the window-start timestamp unchanged (0); the source instead
stores `lastRequest = 1000` on every allowed request. -/
theorem isRequestAllowed_cx :
    ((isRequestAllowed 1000 stH "u").map
        (fun pr => ((pr.2.userLimits.lookup "u").map UserRecord.lastRequest, pr.1.allowed)))
      = some (some 1000, true) ∧
    freshUser.lastRequest = 0 := by
  have h : stH.userLimits.lookup "u" = some freshUser := rfl
  have hL := getUserLimit_of_mem stH "u" freshUser h
  have hmul : getHealthMultiplier stH.apiHealth = 1 := by
    unfold getHealthMultiplier
    norm_num [stH]
  have hreq : (limitFor freshUser stH.apiHealth).requests = 5 := by
    simp [limitFor, hmul, baseRequests, freshUser]
  refine ⟨?_, rfl⟩
  simp only [isRequestAllowed, h, hL]
  rw [if_neg (show ¬ (limitFor freshUser stH.apiHealth).window < 1000 - freshUser.lastRequest
      from by decide)]
  rw [if_pos (show ((freshUser.requests : ℕ) : Int) < (limitFor freshUser stH.apiHealth).requests
      from by rw [hreq]; decide)]
  simp only [Option.map_some']
  have hlook2 : (mapSet stH.userLimits "u"
        ⟨freshUser.tier, freshUser.requests + 1, 1000, freshUser.successCount,
         freshUser.errorCount, freshUser.upgradeEligible⟩).lookup "u" =
      some ⟨freshUser.tier, freshUser.requests + 1, 1000, freshUser.successCount,
            freshUser.errorCount, freshUser.upgradeEligible⟩ := rfl
  have hrr : (recordRequest 1000
      (⟨mapSet stH.userLimits "u"
        ⟨freshUser.tier, freshUser.requests + 1, 1000, freshUser.successCount,
         freshUser.errorCount, freshUser.upgradeEligible⟩, stH.apiHealth⟩ : LimiterState)
      "u" true).userLimits.lookup "u"
      = some (updateUserTierPure (applyOutcome
          ⟨freshUser.tier, freshUser.requests + 1, 1000, freshUser.successCount,
           freshUser.errorCount, freshUser.upgradeEligible⟩ true)) :=
    recordRequest_lookup 1000
      (⟨mapSet stH.userLimits "u"
        ⟨freshUser.tier, freshUser.requests + 1, 1000, freshUser.successCount,
         freshUser.errorCount, freshUser.upgradeEligible⟩, stH.apiHealth⟩ : LimiterState)
      "u"
      ⟨freshUser.tier, freshUser.requests + 1, 1000, freshUser.successCount,
       freshUser.errorCount, freshUser.upgradeEligible⟩ true hlook2
  rw [hrr]
  simp [(updateUserTierPure_fields _).2.1, (applyOutcome_fields _ _).2.2]

/-- C2 witness: the amended theorem applied to the fresh user of `stH` at
time 1000. -/
theorem isRequestAllowed_spec_witness :
    stH.userLimits.lookup "u" = some freshUser ∧
    (∃ res st2, isRequestAllowed 1000 stH "u" = some (res, st2) ∧
      ∃ u2, st2.userLimits.lookup "u" = some u2 ∧
        (res.allowed = true →
          u2.lastRequest = 1000 ∧
          u2.requests = (if (60000 : Int) < 1000 - freshUser.lastRequest then 0
                         else freshUser.requests) + 1) ∧
        (res.allowed = false →
          u2.lastRequest = freshUser.lastRequest ∧ u2.requests = freshUser.requests ∧
          ¬ ((60000 : Int) < 1000 - freshUser.lastRequest) ∧
          res.retryAfter = some ⌈((60000 - (1000 - freshUser.lastRequest) : Int) : ℚ) / 1000⌉)) :=
  ⟨rfl, isRequestAllowed_spec 1000 stH "u" freshUser rfl⟩

/-! ## C8: tier promotion -/

/-- The promotion condition of the claim after `m` recorded outcomes of the
sequence `bs`: at least 50 outcomes and a success rate of at least 0.9
(stated integrally: `9 * m <= 10 * successes`). -/
def promoCond (bs : List Bool) (m : Nat) : Prop :=
  50 ≤ m ∧ 9 * m ≤ 10 * (bs.take m).count true

instance promoCondDecidable (bs : List Bool) (m : Nat) : Decidable (promoCond bs m) :=
  inferInstanceAs (Decidable (50 ≤ m ∧ 9 * m ≤ 10 * (bs.take m).count true))

theorem rate_ge_iff (ct ce : Nat) (hpos : 0 < ct + ce) :
    ((9/10 : ℚ) ≤ (ct : ℚ) / ((ct : ℚ) + (ce : ℚ))) ↔ 9 * (ct + ce) ≤ 10 * ct := by
  have hpos' : (0 : ℚ) < (ct : ℚ) + (ce : ℚ) := by exact_mod_cast hpos
  rw [div_le_div_iff₀ (by norm_num) hpos']
  rw [show ((9 * (ct + ce) ≤ 10 * ct) ↔
      ((9 * (ct + ce) : ℕ) : ℚ) ≤ ((10 * ct : ℕ) : ℚ)) from Nat.cast_le.symm]
  push_cast
  constructor <;> intro h <;> linarith

theorem updateUserTierPure_newUser (u : UserRecord) (hu : u.tier = UserTier.newUser) :
    (updateUserTierPure u).tier =
      if 50 ≤ u.successCount + u.errorCount ∧
         (9/10 : ℚ) ≤ (u.successCount : ℚ) / ((u.successCount : ℚ) + (u.errorCount : ℚ))
      then UserTier.regular else UserTier.newUser := by
  simp only [updateUserTierPure]
  by_cases hc : 50 ≤ u.successCount + u.errorCount ∧
      (9/10 : ℚ) ≤ (u.successCount : ℚ) / ((u.successCount : ℚ) + (u.errorCount : ℚ))
  · have hCond : 50 ≤ u.successCount + u.errorCount ∧
        (9/10 : ℚ) ≤ (u.successCount : ℚ) / ((u.successCount : ℚ) + (u.errorCount : ℚ)) ∧
        u.tier = UserTier.newUser := ⟨hc.1, hc.2, hu⟩
    rw [if_pos hCond]
    rw [if_neg, if_pos hc]
    rintro ⟨_, hlt, _⟩
    have h9 := hc.2
    linarith
  · have hnCond : ¬ (50 ≤ u.successCount + u.errorCount ∧
        (9/10 : ℚ) ≤ (u.successCount : ℚ) / ((u.successCount : ℚ) + (u.errorCount : ℚ)) ∧
        u.tier = UserTier.newUser) := fun hx => hc ⟨hx.1, hx.2.1⟩
    rw [if_neg hnCond]
    have hnC2 : ¬ (200 ≤ u.successCount + u.errorCount ∧
        (95/100 : ℚ) ≤ (u.successCount : ℚ) / ((u.successCount : ℚ) + (u.errorCount : ℚ)) ∧
        u.tier = UserTier.regular) := by
      rintro ⟨_, _, hreg⟩
      rw [hu] at hreg
      cases hreg
    rw [if_neg hnC2]
    rw [if_neg, if_neg hc]
    · exact hu
    · rintro ⟨_, _, hne⟩
      exact hne hu

theorem applyOutcome_step_counts (u : UserRecord) (b : Bool) (p : List Bool)
    (hus : u.successCount = p.count true) (hue : u.errorCount = p.count false) :
    (applyOutcome u b).successCount = (p ++ [b]).count true ∧
    (applyOutcome u b).errorCount = (p ++ [b]).count false ∧
    (applyOutcome u b).successCount + (applyOutcome u b).errorCount = p.length + 1 := by
  have hc := List.count_true_add_count_false p
  cases b <;> simp [applyOutcome, hus, hue, List.count_append] <;> omega

theorem promoCond_take (bs : List Bool) (k m : Nat) (hm : m ≤ k) :
    promoCond (bs.take k) m ↔ promoCond bs m := by
  unfold promoCond
  rw [List.take_take, Nat.min_eq_left hm]

theorem runOutcomes_newUser_aux (now : Int) (uid : String) (st : LimiterState)
    (u0 : UserRecord) (h0 : st.userLimits.lookup uid = some u0)
    (ht : u0.tier = UserTier.newUser) (hs : u0.successCount = 0) (he : u0.errorCount = 0) :
    ∀ bs : List Bool, (∀ m, m ≤ bs.length → ¬ promoCond bs m) →
      ∃ u, (runOutcomes now st uid bs).userLimits.lookup uid = some u ∧
        u.tier = UserTier.newUser ∧ u.successCount = bs.count true ∧
        u.errorCount = bs.count false := by
  intro bs
  induction bs using List.reverseRecOn with
  | nil =>
    intro _
    exact ⟨u0, h0, ht, by simp [hs], by simp [he]⟩
  | append_singleton p b ih =>
    intro hno
    have hp : ∀ m, m ≤ p.length → ¬ promoCond p m := by
      intro m hm hcp
      apply hno m (by simp; omega)
      unfold promoCond at hcp ⊢
      rwa [List.take_append_of_le_length hm]
    rcases ih hp with ⟨u, hu, hut, hus, hue⟩
    have hrun : runOutcomes now st uid (p ++ [b])
        = recordRequest now (runOutcomes now st uid p) uid b := by
      simp [runOutcomes, List.foldl_append]
    have hlk := recordRequest_lookup now _ uid u b hu
    rw [hrun]
    rcases applyOutcome_step_counts u b p hus hue with ⟨hc1, hc2, hc3⟩
    refine ⟨_, hlk, ?_, ?_, ?_⟩
    · have hAt : (applyOutcome u b).tier = UserTier.newUser := by
        rw [(applyOutcome_fields u b).1, hut]
      rw [updateUserTierPure_newUser _ hAt, if_neg]
      rintro ⟨h50, hrate⟩
      have hpos : 0 < (applyOutcome u b).successCount + (applyOutcome u b).errorCount := by
        omega
      have hint := (rate_ge_iff _ _ hpos).mp hrate
      apply hno (p.length + 1) (by simp)
      refine ⟨by omega, ?_⟩
      have htake : (p ++ [b]).take (p.length + 1) = p ++ [b] := by
        rw [show p.length + 1 = (p ++ [b]).length from by simp]
        exact List.take_length _
      rw [htake, ← hc1]
      omega
    · rw [(updateUserTierPure_fields _).2.2.1, hc1]
    · rw [(updateUserTierPure_fields _).2.2.2, hc2]

/-- C8: for a user record starting at tier `newUser` with zero counters, run
any outcome sequence through `recordRequest`: as long as no prefix of length
`m` satisfies the promotion condition (at least 50 outcomes with success
rate at least 0.9), the tier is still `newUser`; at the first `k` whose
prefix satisfies it, the tier after the `k`-th recorded outcome is
`regular`. -/
theorem tier_promotion (now : Int) (st : LimiterState) (uid : String) (u0 : UserRecord)
    (h0 : st.userLimits.lookup uid = some u0) (ht : u0.tier = UserTier.newUser)
    (hs : u0.successCount = 0) (he : u0.errorCount = 0)
    (bs : List Bool) (k : Nat) (hk : k ≤ bs.length) :
    ((∀ m, m ≤ k → ¬ promoCond bs m) →
      ∃ u, (runOutcomes now st uid (bs.take k)).userLimits.lookup uid = some u ∧
        u.tier = UserTier.newUser) ∧
    ((∀ m, m < k → ¬ promoCond bs m) → promoCond bs k →
      ∃ u, (runOutcomes now st uid (bs.take k)).userLimits.lookup uid = some u ∧
        u.tier = UserTier.regular) := by
  have hlen : (bs.take k).length = k := by
    rw [List.length_take]
    omega
  constructor
  · intro hno
    have hno' : ∀ m, m ≤ (bs.take k).length → ¬ promoCond (bs.take k) m := by
      intro m hm
      rw [hlen] at hm
      rw [promoCond_take bs k m hm]
      exact hno m hm
    rcases runOutcomes_newUser_aux now uid st u0 h0 ht hs he (bs.take k) hno'
      with ⟨u, hu, hut, _, _⟩
    exact ⟨u, hu, hut⟩
  · intro hno hKk
    have h1k : 1 ≤ k := by
      rcases hKk with ⟨h50, _⟩
      omega
    have hjlt : k - 1 < bs.length := by omega
    have htake : bs.take k = bs.take (k - 1) ++ [bs[k - 1]] := by
      conv_lhs => rw [show k = (k - 1) + 1 from by omega]
      rw [List.take_succ, List.getElem?_eq_getElem hjlt]
      rfl
    have hnoj : ∀ m, m ≤ (bs.take (k - 1)).length → ¬ promoCond (bs.take (k - 1)) m := by
      intro m hm
      rw [List.length_take] at hm
      have hm' : m ≤ k - 1 := by omega
      rw [promoCond_take bs (k - 1) m hm']
      exact hno m (by omega)
    rcases runOutcomes_newUser_aux now uid st u0 h0 ht hs he (bs.take (k - 1)) hnoj
      with ⟨u, hu, hut, hus, hue⟩
    have hrun : runOutcomes now st uid (bs.take k)
        = recordRequest now (runOutcomes now st uid (bs.take (k - 1))) uid (bs[k - 1]) := by
      rw [htake]
      unfold runOutcomes
      rw [List.foldl_append]
      rfl
    have hlk := recordRequest_lookup now _ uid u (bs[k - 1]) hu
    rw [hrun]
    rcases applyOutcome_step_counts u (bs[k - 1]) (bs.take (k - 1)) hus hue with ⟨hc1, hc2, hc3⟩
    refine ⟨_, hlk, ?_⟩
    have hAt : (applyOutcome u (bs[k - 1])).tier = UserTier.newUser := by
      rw [(applyOutcome_fields u _).1, hut]
    rw [updateUserTierPure_newUser _ hAt, if_pos]
    have hlen1 : (bs.take (k - 1)).length = k - 1 := by
      rw [List.length_take]
      omega
    have hkeq : (bs.take (k - 1)).length + 1 = k := by omega
    have hcnt : (applyOutcome u (bs[k - 1])).successCount = (bs.take k).count true := by
      rw [hc1, ← htake]
    rcases hKk with ⟨h50, hrate⟩
    constructor
    · omega
    · have hpos : 0 < (applyOutcome u (bs[k - 1])).successCount
          + (applyOutcome u (bs[k - 1])).errorCount := by omega
      apply (rate_ge_iff _ _ hpos).mpr
      rw [hcnt]
      omega

/-- The 50-outcome sequence of the claim: 45 successes then 5 failures. -/
def bs50 : List Bool := List.replicate 45 true ++ List.replicate 5 false

/-- C8 witness: with 45 successes out of 50 outcomes the promotion condition
first holds at the 50th outcome, and the tier after running exactly those 50
outcomes from a fresh `newUser` record is `regular`. -/
theorem tier_promotion_witness :
    promoCond bs50 50 ∧ (∀ m, m < 50 → ¬ promoCond bs50 m) ∧
    (∃ u, (runOutcomes 0 stH "u" (bs50.take 50)).userLimits.lookup "u" = some u ∧
      u.tier = UserTier.regular) :=
  ⟨by decide, by decide,
   (tier_promotion 0 stH "u" freshUser rfl rfl rfl rfl bs50 50 (by decide)).2
     (by decide) (by decide)⟩
